import Mathlib

/-!
Verification of the godotq `.tscn` scene parser (`main.go`).

Strings are modelled as `List Char`; Go maps become association lists where a
new binding is prepended, so that a first-match lookup realises Go's
last-write-wins overwrite semantics.  The randomized iteration order of a Go
map is modelled by an explicit reordering parameter where the code iterates
over a map (the path-suffix fallback of `findParentInProcessedNodes`).
-/

abbrev Str := List Char

def strData (s : String) : Str := s.data

/-- Whitespace trim from the left, mirroring `strings.TrimSpace`. -/
def trimLeftStr : Str → Str
  | [] => []
  | c :: rest => if c.isWhitespace then trimLeftStr rest else c :: rest

/-- Whitespace trim on both sides, mirroring `strings.TrimSpace`. -/
def trimStr (s : Str) : Str :=
  ((trimLeftStr ((trimLeftStr s).reverse)).reverse)

/-- Does the string end with the double-quote character (`strings.HasSuffix(s, "\"")`). -/
def endsQuote (s : Str) : Bool := s.getLast? == some '"'

/-- Does the string start with the double-quote character (`strings.HasPrefix(s, "\"")`). -/
def startsQuote (s : Str) : Bool := s.head? == some '"'

/-- Go `strings.TrimSuffix(s, "\"")`: remove one trailing quote if present. -/
def trimEndQuote (s : Str) : Str := if endsQuote s then s.dropLast else s

/-- Go `strings.TrimPrefix(s, "\"")`: remove one leading quote if present. -/
def trimStartQuote (s : Str) : Str := if startsQuote s then s.drop 1 else s

/-- Split at the first `=`, as `strings.SplitN(s, "=", 2)` (`none` when no `=`). -/
def splitFirstEq : Str → Option (Str × Str)
  | [] => none
  | c :: rest =>
    if c == '=' then some ([], rest)
    else (splitFirstEq rest).map (fun p => (c :: p.1, p.2))

/-- Go `strings.ReplaceAll(s, "\\n", "\n")`: left-to-right, non-overlapping. -/
def replaceEscapes : Str → Str
  | [] => []
  | '\\' :: 'n' :: rest => '\n' :: replaceEscapes rest
  | c :: rest => c :: replaceEscapes rest

/-- Go `strings.Split(s, sep)` for a one-character separator; never returns `[]`. -/
def splitOnChar (c : Char) : Str → List Str
  | [] => [[]]
  | x :: rest =>
    if x == c then [] :: splitOnChar c rest
    else
      match splitOnChar c rest with
      | [] => [[x]]
      | r :: rs => (x :: r) :: rs

/-- Last path component: `parts[len(parts)-1]` of `strings.Split(s, "/")`. -/
def lastComponent (s : Str) : Str := (splitOnChar '/' s).getLastD []

/-- Characters strictly before the next `"`, or `none` if no closing quote follows;
this is the `([^"]*)` capture of the attribute regexes. -/
def captureQuoted : Str → Option Str
  | [] => none
  | c :: rest => if c == '"' then some [] else (captureQuoted rest).map (c :: ·)

/-- First match of the regex `tag("…")`-style pattern `tag` followed by a quoted
capture, scanning every start position like `FindStringSubmatch`. -/
def findAttr (tag : Str) : Str → Option Str
  | [] => none
  | c :: rest =>
    match (if tag.isPrefixOf (c :: rest) then captureQuoted ((c :: rest).drop tag.length) else none) with
    | some v => some v
    | none => findAttr tag rest

def isWordChar (c : Char) : Bool := c.isAlphanum || c == '_'

/-- Like `findAttr` but the match position must sit at a word boundary
(previous character absent or not a word character), for the `\bid="…"` regex. -/
def findAttrBoundary (tag : Str) (prev : Option Char) : Str → Option Str
  | [] => none
  | c :: rest =>
    match (if (match prev with | none => true | some p => !isWordChar p) && tag.isPrefixOf (c :: rest) then
             captureQuoted ((c :: rest).drop tag.length) else none) with
    | some v => some v
    | none => findAttrBoundary tag (some c) rest

def takeDigits : Str → (Str × Str)
  | [] => ([], [])
  | c :: rest =>
    if c.isDigit then
      match takeDigits rest with
      | (d, r) => (c :: d, r)
    else ([], c :: rest)

def digitsToNat (ds : Str) : Nat :=
  List.foldl (fun a c => a * 10 + (c.toNat - 48)) 0 ds

/-- First match of `tag(\d+)`: the literal `tag` followed by at least one digit. -/
def findNum (tag : Str) : Str → Option Nat
  | [] => none
  | c :: rest =>
    match (if tag.isPrefixOf (c :: rest) then
             match takeDigits ((c :: rest).drop tag.length) with
             | ([], _) => none
             | (ds, _) => some (digitsToNat ds)
           else none) with
    | some v => some v
    | none => findNum tag rest

/-- First match of `tag(\d+)"`: digits enclosed by a closing quote, for `index="(\d+)"`. -/
def findNumQuoted (tag : Str) : Str → Option Nat
  | [] => none
  | c :: rest =>
    match (if tag.isPrefixOf (c :: rest) then
             match takeDigits ((c :: rest).drop tag.length) with
             | ([], _) => none
             | (ds, r) =>
               match r with
               | '"' :: _ => some (digitsToNat ds)
               | _ => none
           else none) with
    | some v => some v
    | none => findNumQuoted tag rest

/-- The `([^"]*)` capture of a call token `tag + "…")`, requiring the closing
quote to be followed by `)`, as in `ExtResource\("([^"]*)"\)`. -/
def captureCall : Str → Option Str
  | [] => none
  | '"' :: ')' :: _ => some []
  | '"' :: _ => none
  | c :: rest => (captureCall rest).map (c :: ·)

def findCallToken (tag : Str) : Str → Option Str
  | [] => none
  | c :: rest =>
    match (if tag.isPrefixOf (c :: rest) then captureCall ((c :: rest).drop tag.length) else none) with
    | some v => some v
    | none => findCallToken tag rest

/-- Structure `GodotResource` from `main.go`. -/
structure GodotResource where
  id : Str
  rtype : Str
  path : Str
  uid : Str
  deriving DecidableEq, Repr

/-- Structure `GodotNode` from `main.go` (tree data — `Path`, `Children` — lives in the
assembler state, keyed by declaration index). -/
structure GodotNode where
  name : Str
  ntype : Str
  parent : Str
  index : Nat
  properties : List (Str × Str)
  script : Str
  deriving DecidableEq, Repr

def lookupProp (ps : List (Str × Str)) (k : Str) : Option Str :=
  (ps.find? (fun e => e.1 == k)).map (·.2)

/-- Structure `GodotScene` from `main.go` (flat part; the assembled tree is a `AsmState`). -/
structure GodotScene where
  loadSteps : Nat
  format : Nat
  allNodes : List GodotNode
  resources : List Str
  extResources : List (Str × GodotResource)
  subResources : List (Str × GodotResource)
  deriving DecidableEq, Repr

def initialScene : GodotScene := ⟨0, 0, [], [], [], []⟩

/-- Function `parseHeader`: extract `load_steps=(\d+)` and `format=(\d+)`. -/
def parseHeader (line : Str) (scene : GodotScene) : GodotScene :=
  let s1 := match findNum (strData "load_steps=") line with
    | some n => { scene with loadSteps := n }
    | none => scene
  match findNum (strData "format=") line with
  | some n => { s1 with format := n }
  | none => s1

/-- Function `parseExtResource`: extract `type=`, `path=`, `\bid=`, `uid=`; keyed by id,
falling back to uid, dropped when neither is present. -/
def parseExtResource (line : Str) (scene : GodotScene) : GodotScene :=
  let r : GodotResource :=
    { id := (findAttrBoundary (strData "id=\"") none line).getD []
      rtype := (findAttr (strData "type=\"") line).getD []
      path := (findAttr (strData "path=\"") line).getD []
      uid := (findAttr (strData "uid=\"") line).getD [] }
  if r.id ≠ [] then { scene with extResources := (r.id, r) :: scene.extResources }
  else if r.uid ≠ [] then { scene with extResources := (r.uid, r) :: scene.extResources }
  else scene

/-- Function `parseSubResource`: extract `type=` and `id=` (no word boundary on `id=` here). -/
def parseSubResource (line : Str) (scene : GodotScene) : GodotScene :=
  let r : GodotResource :=
    { id := (findAttr (strData "id=\"") line).getD []
      rtype := (findAttr (strData "type=\"") line).getD []
      path := []
      uid := [] }
  if r.id ≠ [] then { scene with subResources := (r.id, r) :: scene.subResources }
  else scene

/-- Function `parseResource`: record the raw line and dispatch on the section kind. -/
def parseResource (line : Str) (scene : GodotScene) : GodotScene :=
  let scene := { scene with resources := scene.resources ++ [line] }
  if (strData "[ext_resource").isPrefixOf line then parseExtResource line scene
  else if (strData "[sub_resource").isPrefixOf line then parseSubResource line scene
  else scene

/-- Function `parseNodeHeader`: extract `name=`, `type=`, `parent=`, `index="(\d+)"`. -/
def parseNodeHeader (line : Str) : GodotNode :=
  { name := (findAttr (strData "name=\"") line).getD []
    ntype := (findAttr (strData "type=\"") line).getD []
    parent := (findAttr (strData "parent=\"") line).getD []
    index := (findNumQuoted (strData "index=\"") line).getD 0
    properties := []
    script := [] }

/-- Function `parseNodeProperty`: split at the first `=`, trim, strip a quote only in
the two mixed cases, convert `\n` escapes, store (and mirror `script`). -/
def parseNodeProperty (line : Str) (node : GodotNode) : GodotNode :=
  match splitFirstEq line with
  | none => node
  | some (k0, v0) =>
    let k := trimStr k0
    let v1 := trimStr v0
    let v2 :=
      if startsQuote v1 && !endsQuote v1 then v1.drop 1
      else if endsQuote v1 && !startsQuote v1 then v1.dropLast
      else v1
    let v := replaceEscapes v2
    { node with
      properties := (k, v) :: node.properties
      script := if k == strData "script" then v else node.script }

/-- Mutable loop state of `ParseTscnFile` (lines 87–92 of `main.go`). -/
structure PState where
  scene : GodotScene
  currentNode : Option GodotNode
  inNode : Bool
  multilineProperty : Str
  multilineValue : Str
  inMultiline : Bool
  deriving DecidableEq, Repr

def initialPState : PState := ⟨initialScene, none, false, [], [], false⟩

/-- One iteration of the scan loop of `ParseTscnFile` (lines 94–187). -/
def processLine (st : PState) (raw : Str) : PState :=
  let line := trimStr raw
  if st.inMultiline then
    if endsQuote line then
      let value := st.multilineValue ++ trimEndQuote line
      let cur := st.currentNode.map (fun n =>
        { n with
          properties := (st.multilineProperty, value) :: n.properties
          script := if st.multilineProperty == strData "script" then value else n.script })
      { st with currentNode := cur, inMultiline := false, multilineProperty := [], multilineValue := [] }
    else
      { st with multilineValue := st.multilineValue ++ line ++ ['\n'] }
  else if line == [] || (strData ";").isPrefixOf line then st
  else if (strData "[gd_scene").isPrefixOf line then
    { st with scene := parseHeader line st.scene, inNode := false }
  else if (strData "[ext_resource").isPrefixOf line || (strData "[sub_resource").isPrefixOf line then
    { st with scene := parseResource line st.scene, inNode := false }
  else if (strData "[node").isPrefixOf line then
    let scene := match st.currentNode with
      | some n => { st.scene with allNodes := st.scene.allNodes ++ [n] }
      | none => st.scene
    { st with scene := scene, currentNode := some (parseNodeHeader line), inNode := true }
  else if (strData "[").isPrefixOf line then
    { st with inNode := false }
  else if st.inNode && st.currentNode.isSome then
    match splitFirstEq line with
    | some (k0, v0) =>
      let key := trimStr k0
      let value := trimStr v0
      if startsQuote value && !endsQuote value then
        { st with inMultiline := true, multilineProperty := key
                  multilineValue := value.drop 1 ++ ['\n'] }
      else
        { st with currentNode := st.currentNode.map (parseNodeProperty line) }
    | none =>
      { st with currentNode := st.currentNode.map (parseNodeProperty line) }
  else st

def processLines (st : PState) : List Str → PState
  | [] => st
  | l :: ls => processLines (processLine st l) ls

/-- After the loop, the pending node is appended (lines 190–193); an unfinished
multiline accumulation is simply dropped. -/
def finalNodes (st : PState) : List GodotNode :=
  match st.currentNode with
  | some n => st.scene.allNodes ++ [n]
  | none => st.scene.allNodes

/-- How a node was placed by `buildSceneTree`: designated root, or attached as a
child of the node at declaration index `p`. -/
inductive AttachKind where
  | asRoot : AttachKind
  | asChild (p : Nat) : AttachKind
  deriving DecidableEq, Repr

/-- State of `buildSceneTree`: `pathOf` holds each processed node's assigned
canonical path, `pathMap` the path index (latest binding first, matching Go map
overwrite on lookup), `childPairs` the parent/child attachments in order,
`attach` the placement trace, `processed` the enumerated prefix already handled,
and `suffixAmbig` records whether the path-suffix fallback was ever consulted
with two or more matching index entries (where Go map iteration order decides). -/
structure AsmState where
  nextIdx : Nat
  rootIdx : Option Nat
  pathOf : List (Nat × Str)
  pathMap : List (Str × Nat)
  childPairs : List (Nat × Nat)
  attach : List (Nat × AttachKind)
  processed : List (Nat × GodotNode)
  suffixAmbig : Bool
  deriving DecidableEq, Repr

def initAsm : AsmState := ⟨0, none, [], [], [], [], [], false⟩

def pathOfIdx (st : AsmState) (p : Nat) : Str :=
  (((st.pathOf.find? (fun e => e.1 == p)).map (·.2)).getD [])

/-- Tiers (a)–(c) of `findParentInProcessedNodes`: exact path-map lookup, then
first processed node with matching name, then — for slash paths — first
processed node matching the last path component. -/
def findParentTiersABC (ref : Str) (pathMap : List (Str × Nat))
    (processed : List (Nat × GodotNode)) : Option Nat :=
  match pathMap.find? (fun e => e.1 == ref) with
  | some e => some e.2
  | none =>
    match processed.find? (fun e => e.2.name == ref) with
    | some e => some e.1
    | none =>
      if ref.contains '/' then
        match processed.find? (fun e => e.2.name == lastComponent ref) with
        | some e => some e.1
        | none => none
      else none

def suffixPred (ref : Str) : Str × Nat → Bool := fun e => List.isSuffixOf ('/' :: ref) e.1

/-- Tier (d): scan the path index for a canonical path ending in `"/" + ref`. -/
def suffixScan (ref : Str) (l : List (Str × Nat)) : Option Nat :=
  (l.find? (suffixPred ref)).map (·.2)

/-- Function `findParentInProcessedNodes`, with the map-iteration list for tier (d)
passed explicitly. -/
def findParentInProcessedNodes (ref : Str) (pathMap : List (Str × Nat))
    (scanned : List (Str × Nat)) (processed : List (Nat × GodotNode)) : Option Nat :=
  match findParentTiersABC ref pathMap processed with
  | some p => some p
  | none => suffixScan ref scanned

/-- Common tail of one `buildSceneTree` iteration: attach below the resolved
parent, else below the root, else designate the node itself as root; then record
the new canonical path in the path index (lines 385–403). -/
def attachNode (st : AsmState) (node : GodotNode) (i : Nat) (pn : Option Nat)
    (ambig : Bool) : AsmState :=
  match pn with
  | some p =>
    let pp := pathOfIdx st p ++ '/' :: node.name
    ⟨i + 1, st.rootIdx, (i, pp) :: st.pathOf, (pp, i) :: st.pathMap,
      st.childPairs ++ [(p, i)], st.attach ++ [(i, .asChild p)],
      st.processed ++ [(i, node)], ambig⟩
  | none =>
    match st.rootIdx with
    | some rt =>
      let pp := pathOfIdx st rt ++ '/' :: node.name
      ⟨i + 1, st.rootIdx, (i, pp) :: st.pathOf, (pp, i) :: st.pathMap,
        st.childPairs ++ [(rt, i)], st.attach ++ [(i, .asChild rt)],
        st.processed ++ [(i, node)], ambig⟩
    | none =>
      ⟨i + 1, some i, (i, node.name) :: st.pathOf, (node.name, i) :: st.pathMap,
        st.childPairs, st.attach ++ [(i, .asRoot)],
        st.processed ++ [(i, node)], ambig⟩

/-- One iteration of `buildSceneTree` (lines 358–404).  `look` supplies the map
iteration order used by the path-suffix fallback at each step. -/
def asmStep (look : Nat → List (Str × Nat) → List (Str × Nat))
    (st : AsmState) (node : GodotNode) : AsmState :=
  let i := st.nextIdx
  if node.parent == [] || node.parent == ['.'] then
    if node.parent == [] && st.rootIdx == none then
      attachNode st node i none st.suffixAmbig
    else
      let pn := if node.parent == ['.'] && !(st.rootIdx == none) then st.rootIdx else none
      attachNode st node i pn st.suffixAmbig
  else
    let scanned := look i st.pathMap
    let pn := findParentInProcessedNodes node.parent st.pathMap scanned st.processed
    let ambig := st.suffixAmbig ||
      (findParentTiersABC node.parent st.pathMap st.processed == none &&
        decide (2 ≤ scanned.countP (suffixPred node.parent)))
    attachNode st node i pn ambig

def asmFoldOrd (look : Nat → List (Str × Nat) → List (Str × Nat))
    (st : AsmState) : List GodotNode → AsmState
  | [] => st
  | n :: ns => asmFoldOrd look (asmStep look st n) ns

/-- Function `buildSceneTree` with an explicit map-iteration order for tier (d). -/
def buildSceneTreeOrd (look : Nat → List (Str × Nat) → List (Str × Nat))
    (nodes : List GodotNode) : AsmState :=
  asmFoldOrd look initAsm nodes

/-- The canonical iteration order: scan the path index in (reverse) insertion
order, one admissible realisation of Go's unspecified map order. -/
def idLook : Nat → List (Str × Nat) → List (Str × Nat) := fun _ l => l

/-- Function `buildSceneTree` with the canonical iteration order. -/
def buildSceneTree (nodes : List GodotNode) : AsmState :=
  buildSceneTreeOrd idLook nodes

/-- Placement recorded for declaration index `i`. -/
def attOf (st : AsmState) (i : Nat) : Option AttachKind :=
  (st.attach.find? (fun e => e.1 == i)).map (·.2)

/-- Result of a full parse: the flat scene plus the assembled tree. -/
structure SceneResult where
  scene : GodotScene
  tree : AsmState
  deriving DecidableEq, Repr

def finalizeScene (st : PState) : SceneResult :=
  let nodes := finalNodes st
  { scene := { st.scene with allNodes := nodes }, tree := buildSceneTree nodes }

/-- The scan loop with the `bufio.Scanner` buffer capacity: a physical line
longer than the capacity aborts the scan with `ErrTooLong`. -/
def scanLoop (cap : Nat) (st : PState) : List Str → Except Unit PState
  | [] => .ok st
  | l :: ls => if cap < l.length then .error () else scanLoop cap (processLine st l) ls

/-- Function `ParseTscnFile` over pre-split physical lines, with the scanner capacity as
a parameter (the Go constant is 10 MiB). -/
def ParseTscnFile (cap : Nat) (lines : List Str) : Except Unit SceneResult :=
  (scanLoop cap initialPState lines).map finalizeScene

def isOkE : Except Unit SceneResult → Bool
  | .ok _ => true
  | .error _ => false

/-- Function `resolveResourcePath`: try `ExtResource("…")` against the external table,
then `SubResource("…")` against the sub-resource table. -/
def resolveResourcePath (ref : Str) (scene : GodotScene) : Str :=
  let ext : Option Str := match findCallToken (strData "ExtResource(\"") ref with
    | some id =>
      match scene.extResources.find? (fun e => e.1 == id) with
      | some e => some e.2.path
      | none => none
    | none => none
  match ext with
  | some p => p
  | none =>
    match findCallToken (strData "SubResource(\"") ref with
    | some id =>
      match scene.subResources.find? (fun e => e.1 == id) with
      | some e => strData "SubResource(" ++ e.2.rtype ++ [')']
      | none => []
    | none => []

/-- The parent option one `buildSceneTree` iteration computes for the node at
hand, before the attach-or-root fallback. -/
def stepPn (look : Nat → List (Str × Nat) → List (Str × Nat))
    (st : AsmState) (n : GodotNode) : Option Nat :=
  if n.parent == [] || n.parent == ['.'] then
    if n.parent == [] && st.rootIdx == none then none
    else if n.parent == ['.'] && !(st.rootIdx == none) then st.rootIdx else none
  else findParentInProcessedNodes n.parent st.pathMap (look st.nextIdx st.pathMap) st.processed

/-- The placement one `buildSceneTree` iteration records for the node at hand. -/
def stepKind (look : Nat → List (Str × Nat) → List (Str × Nat))
    (st : AsmState) (n : GodotNode) : AttachKind :=
  match stepPn look st n with
  | some p => .asChild p
  | none =>
    match st.rootIdx with
    | some rt => .asChild rt
    | none => .asRoot

/-- The ambiguity flag one `buildSceneTree` iteration leaves behind. -/
def stepAmbig (look : Nat → List (Str × Nat) → List (Str × Nat))
    (st : AsmState) (n : GodotNode) : Bool :=
  if n.parent == [] || n.parent == ['.'] then st.suffixAmbig
  else st.suffixAmbig ||
    (findParentTiersABC n.parent st.pathMap st.processed == none &&
      decide (2 ≤ (look st.nextIdx st.pathMap).countP (suffixPred n.parent)))

/-- Spec side: index of the first node in declaration order with the given
declared name, among the already-processed prefix. -/
def firstNameMatch (pre : List GodotNode) (nm : Str) : Option Nat :=
  (pre.enum.find? (fun e => e.2.name == nm)).map (·.1)

/-- Spec side (claim C1): the four-tier parent resolution order, stated over
the already-assigned canonical paths (`st.pathOf`) and the already-processed
declaration prefix `pre`.  The result `res` must be: (a) a node whose assigned
canonical path equals the reference exactly; else (b) the first processed node
whose declared name equals the reference; else (c), when the reference contains
a slash, the first processed node whose declared name equals its last path
component; else (d) any node whose assigned canonical path ends with
slash-reference; else nothing. -/
def ParentSpec (st : AsmState) (pre : List GodotNode) (r : Str) (res : Option Nat) : Prop :=
  if st.pathOf.any (fun e => e.2 == r) then
    ∃ p, res = some p ∧ (p, r) ∈ st.pathOf
  else if pre.any (fun n => n.name == r) then
    res = firstNameMatch pre r
  else if r.contains '/' && pre.any (fun n => n.name == lastComponent r) then
    res = firstNameMatch pre (lastComponent r)
  else if st.pathOf.any (fun e => List.isSuffixOf ('/' :: r) e.2) then
    ∃ p q, res = some p ∧ (p, q) ∈ st.pathOf ∧ List.isSuffixOf ('/' :: r) q = true
  else res = none

def mkNode (nm ty pr : String) : GodotNode := ⟨nm.data, ty.data, pr.data, 0, [], []⟩

/-- The five-node scene of the repository's unit test. -/
def demoNodes : List GodotNode :=
  [mkNode "Root" "Node2D" "", mkNode "Child1" "Control" ".", mkNode "Child2" "Control" ".",
   mkNode "GrandChild" "Button" "Child1", mkNode "DeepChild" "Label" "Child1/GrandChild"]

/-- Node list whose first node has an unresolvable parent reference and whose
second node is the first one with an empty parent reference. -/
def lateEmptyNodes : List GodotNode := [mkNode "A" "N" "X", mkNode "B" "N" ""]

/-- Node list on which the path-suffix fallback of parent resolution sees two
matching path-index entries (`Root/A/X` and `Root/B/X` both end in `/X`). -/
def ambigNodes : List GodotNode :=
  [mkNode "Root" "N" "", mkNode "A/X" "N" ".", mkNode "B/X" "N" ".", mkNode "C" "N" "X"]

def emptyNode : GodotNode := ⟨[], [], [], 0, [], []⟩

/-- A parse state in the middle of accumulating a multiline value. -/
def midMultilineState : PState :=
  { scene := initialScene, currentNode := some emptyNode, inNode := true,
    multilineProperty := strData "text", multilineValue := strData "x\n", inMultiline := true }

/-- Lines whose multiline value contains a literal backslash-n sequence. -/
def escapeLines : List Str :=
  [strData "[node name=\"N\"]", strData "text = \"ab\\ncd", strData "ef\""]

/-- Lines that end while a multiline value is still being accumulated. -/
def eofLines : List Str :=
  [strData "[node name=\"N\"]", strData "a = 1", strData "text = \"abc"]

/-- The node that `eofLines` leaves pending when the input ends. -/
def eofNode : GodotNode :=
  ⟨strData "N", [], [], 0, [(strData "a", strData "1")], []⟩

/-- Lines whose physical lines all fit in a capacity of 30 bytes while the
accumulated multiline value is 32 characters long. -/
def overLines : List Str :=
  [strData "[node name=\"N\"]", strData "text = \"abcdefgh",
   strData "0123456789012345678", strData "xyz\""]

/-- A scene with one sub-resource and no external resources. -/
def subOnlyScene : GodotScene :=
  { initialScene with subResources := [(strData "S", ⟨strData "S", strData "Shader", [], []⟩)] }

/-- A property value holding an unresolvable external reference followed by a
resolvable sub-resource reference. -/
def dualRef : Str := strData "ExtResource(\"1\") SubResource(\"S\")"

/-- The external-resource declaration of the spec's round-trip example. -/
def rtLine : Str := strData "[ext_resource type=\"Texture2D\" path=\"res://a.png\" id=\"1_x\"]"

def rtScene : GodotScene := (processLine initialPState rtLine).scene

def rtEntry : Str × GodotResource :=
  (strData "1_x", ⟨strData "1_x", strData "Texture2D", strData "res://a.png", []⟩)

/-- Claim C4 as stated is false: a value that both starts and ends with a
quote is stored with both quotes kept (the code strips a quote only in the two
mixed cases), as the repository's own unit test asserts for `"Test Button"`. -/
theorem c4_counterexample :
    lookupProp (parseNodeProperty (strData "text = \"Test Button\"") emptyNode).properties
        (strData "text") = some (strData "\"Test Button\"") ∧
    strData "\"Test Button\"" ≠ strData "Test Button" := by
  constructor
  · rfl
  · decide

/-- C4 (amended): `parseNodeProperty` splits the line at the first `=`, trims
key and value, strips the leading quote only when the value does not also end
with a quote, strips the trailing quote only when the value does not also start
with one, leaves a value enclosed in quotes on both sides untouched, converts
backslash-n escapes and stores the result under the trimmed key. -/
theorem c4_property_quote_handling (node : GodotNode) (line k v : Str)
    (h : splitFirstEq line = some (k, v)) :
    lookupProp (parseNodeProperty line node).properties (trimStr k) =
      some (replaceEscapes (
        if startsQuote (trimStr v) && !endsQuote (trimStr v) then (trimStr v).drop 1
        else if endsQuote (trimStr v) && !startsQuote (trimStr v) then (trimStr v).dropLast
        else trimStr v)) := by
  simp [parseNodeProperty, h, lookupProp, List.find?]

/-- Witness for C4's amended theorem at a concrete bare-token property line. -/
theorem c4_property_quote_handling_witness :
    lookupProp (parseNodeProperty (strData "a = b\\nc") emptyNode).properties (strData "a") =
      some (strData "b\nc") := by
  have h := c4_property_quote_handling emptyNode (strData "a = b\\nc")
    (strData "a ") (strData " b\\nc") (by decide)
  exact h.trans (by decide)

/-- Claim C5 as stated is false: a literal backslash-n inside a value that was
accumulated across physical lines survives to the committed value — the
conversion to a real newline is never applied on the multiline commit path. -/
theorem c5_counterexample :
    ((processLines initialPState escapeLines).currentNode.map
        (fun n => lookupProp n.properties (strData "text"))) =
      some (some (strData "ab\\ncd\nef")) ∧
    strData "ab\\ncd\nef" ≠ strData "ab\ncd\nef" := by
  constructor
  · rfl
  · decide

/-- C5 (amended): the backslash-n conversion happens exactly once for values
committed from a single physical line, inside `parseNodeProperty`; a value
accumulated across physical lines is committed verbatim — accumulated text plus
the closing fragment with its quote stripped — without the conversion. -/
theorem c5_escape_conversion :
    (∀ (st : PState) (n : GodotNode) (line : Str),
        st.inMultiline = true → st.currentNode = some n →
        endsQuote (trimStr line) = true →
        ∃ m, (processLine st line).currentNode = some m ∧
          lookupProp m.properties st.multilineProperty =
            some (st.multilineValue ++ (trimStr line).dropLast)) ∧
    (∀ (node : GodotNode) (line k v : Str), splitFirstEq line = some (k, v) →
        startsQuote (trimStr v) = false → endsQuote (trimStr v) = false →
        lookupProp (parseNodeProperty line node).properties (trimStr k) =
          some (replaceEscapes (trimStr v))) := by
  constructor
  · intro st n line h1 h2 h3
    refine ⟨{ n with
        properties := (st.multilineProperty, st.multilineValue ++ trimEndQuote (trimStr line))
          :: n.properties
        script := if st.multilineProperty == strData "script" then
            st.multilineValue ++ trimEndQuote (trimStr line)
          else n.script }, ?_, ?_⟩
    · simp [processLine, h1, h2, h3]
    · simp [lookupProp, List.find?, trimEndQuote, h3]
  · intro node line k v h h1 h2
    simp [parseNodeProperty, h, h1, h2, lookupProp, List.find?]

/-- Witness for C5's amended theorem: the multiline-commit clause applied to a
concrete closing line, and the single-line clause applied to a concrete
escaped value. -/
theorem c5_escape_conversion_witness :
    ((processLine midMultilineState (strData "done\"")).currentNode.map
        (fun m => lookupProp m.properties (strData "text"))) = some (some (strData "x\ndone")) ∧
    lookupProp (parseNodeProperty (strData "a = b\\nc") emptyNode).properties (strData "a") =
      some (strData "b\nc") := by
  constructor
  · obtain ⟨m, hm, hv⟩ := c5_escape_conversion.1 midMultilineState emptyNode
      (strData "done\"") rfl rfl (by decide)
    have hv2 : lookupProp m.properties (strData "text") =
        some (midMultilineState.multilineValue ++ (trimStr (strData "done\"")).dropLast) := hv
    rw [hm, Option.map_some', hv2]
    decide
  · exact (c5_escape_conversion.2 emptyNode (strData "a = b\\nc")
      (strData "a ") (strData " b\\nc") (by decide) (by decide) (by decide)).trans (by decide)

/-- Claim C6 as stated is false: inside a multiline accumulation a physical
line is whitespace-trimmed before being appended, so its leading and trailing
whitespace is not preserved. -/
theorem c6_counterexample :
    (processLine midMultilineState (strData "  hi  ")).multilineValue ≠
      midMultilineState.multilineValue ++ strData "  hi  " ++ ['\n'] ∧
    (processLine midMultilineState (strData "  hi  ")).multilineValue =
      midMultilineState.multilineValue ++ strData "hi" ++ ['\n'] := by
  constructor
  · decide
  · rfl

/-- C6 (amended): in the multiline state, a physical line whose whitespace-trim
does not end with a quote is appended as that trimmed text followed by a
newline — not character for character — while the state stays in multiline and
the current node is untouched. -/
theorem c6_multiline_append (st : PState) (line : Str)
    (h1 : st.inMultiline = true) (h2 : endsQuote (trimStr line) = false) :
    (processLine st line).multilineValue = st.multilineValue ++ trimStr line ++ ['\n'] ∧
    (processLine st line).inMultiline = true ∧
    (processLine st line).currentNode = st.currentNode := by
  simp [processLine, h1, h2]

/-- Witness for C6's amended theorem at a concrete interior line. -/
theorem c6_multiline_append_witness :
    (processLine midMultilineState (strData "mid")).multilineValue =
      midMultilineState.multilineValue ++ trimStr (strData "mid") ++ ['\n'] ∧
    (processLine midMultilineState (strData "mid")).inMultiline = true ∧
    (processLine midMultilineState (strData "mid")).currentNode =
      midMultilineState.currentNode :=
  c6_multiline_append midMultilineState (strData "mid") rfl (by decide)

/-- C7 (confirmed): when the input ends while a multiline value is still being
accumulated, finalization appends the pending node unchanged — the accumulated
value is discarded, the accumulated key is not added (if it was absent it stays
absent in the final node), and the already-committed properties are untouched. -/
theorem c7_multiline_eof_discard (st : PState) (n : GodotNode)
    (h1 : st.inMultiline = true) (h2 : st.currentNode = some n) :
    finalNodes st = st.scene.allNodes ++ [n] ∧
    (lookupProp n.properties st.multilineProperty = none →
      ((finalNodes st).getLast?.map
          (fun m => lookupProp m.properties st.multilineProperty)) = some none) := by
  have hfin : finalNodes st = st.scene.allNodes ++ [n] := by
    simp [finalNodes, h2]
  refine ⟨hfin, fun h => ?_⟩
  rw [hfin, List.getLast?_concat]
  simp [h]

/-- Witness for C7 on a concrete input that ends in mid-multiline state: the
final node list holds exactly the pending node with only its committed
property. -/
theorem c7_multiline_eof_discard_witness :
    finalNodes (processLines initialPState eofLines) =
      (processLines initialPState eofLines).scene.allNodes ++ [eofNode] ∧
    ((finalNodes (processLines initialPState eofLines)).getLast?.map
        (fun m => lookupProp m.properties
          (processLines initialPState eofLines).multilineProperty)) = some none := by
  have h := c7_multiline_eof_discard (processLines initialPState eofLines) eofNode rfl rfl
  exact ⟨h.1, h.2 (by decide)⟩

theorem scanLoop_ok (cap : Nat) : ∀ (lines : List Str) (st : PState),
    (∀ l ∈ lines, l.length ≤ cap) → scanLoop cap st lines = .ok (processLines st lines) := by
  intro lines
  induction lines with
  | nil => intro st _; rfl
  | cons l ls ih =>
    intro st h
    have hl : ¬ cap < l.length := by
      have := h l (by simp)
      omega
    simp [scanLoop, hl, processLines]
    exact ih (processLine st l) (fun x hx => h x (by simp [hx]))

theorem scanLoop_err (cap : Nat) : ∀ (lines : List Str) (st : PState),
    (∃ l ∈ lines, cap < l.length) → scanLoop cap st lines = .error () := by
  intro lines
  induction lines with
  | nil => intro st h; simp at h
  | cons l ls ih =>
    intro st h
    by_cases hl : cap < l.length
    · simp [scanLoop, hl]
    · obtain ⟨x, hx, hxl⟩ := h
      rcases List.mem_cons.mp hx with hx2 | hx2
      · exact absurd (hx2 ▸ hxl) hl
      · simp [scanLoop, hl]
        exact ih (processLine st l) ⟨x, hx2, hxl⟩

/-- C8 (amended): the scanner bound applies to each physical line — the parse
returns a capacity error exactly when some physical line exceeds the capacity,
and succeeds when every physical line fits; an accumulated multiline value is
not subject to the bound. -/
theorem c8_capacity_per_physical_line (cap : Nat) (lines : List Str) :
    ((∀ l ∈ lines, l.length ≤ cap) →
      ParseTscnFile cap lines = .ok (finalizeScene (processLines initialPState lines))) ∧
    ((∃ l ∈ lines, cap < l.length) → ParseTscnFile cap lines = .error ()) := by
  constructor
  · intro h
    unfold ParseTscnFile
    rw [scanLoop_ok cap lines initialPState h]
    rfl
  · intro h
    unfold ParseTscnFile
    rw [scanLoop_err cap lines initialPState h]
    rfl

/-- Witness for C8's amended theorem: both clauses at concrete inputs — the
in-bound input parses, and an input with one long physical line errors. -/
theorem c8_capacity_per_physical_line_witness :
    ParseTscnFile 30 overLines =
      .ok (finalizeScene (processLines initialPState overLines)) ∧
    ParseTscnFile 10 overLines = .error () := by
  constructor
  · exact (c8_capacity_per_physical_line 30 overLines).1 (by decide)
  · exact (c8_capacity_per_physical_line 10 overLines).2 ⟨strData "[node name=\"N\"]",
      by decide, by decide⟩

/-- Claim C8 as stated is false: with capacity 30, every physical line of
`overLines` fits, the parse succeeds with no capacity error, and yet the single
committed property value — one logical line under the claim's reading — is 32
characters long, exceeding the bound. -/
theorem c8_counterexample :
    (∀ l ∈ overLines, l.length ≤ 30) ∧
    isOkE (ParseTscnFile 30 overLines) = true ∧
    ((processLines initialPState overLines).currentNode.map
        (fun n => (lookupProp n.properties (strData "text")).map List.length)) =
      some (some 32) ∧
    30 < 32 := by
  refine ⟨by decide, ?_, rfl, by omega⟩
  rfl

/-- Claim C10 as stated is false on one point: when the external-reference id
misses the table, the resolver does not return the empty string if the value
also carries a resolvable sub-resource token — it falls through to sub-resource
resolution. -/
theorem c10_counterexample :
    findCallToken (strData "ExtResource(\"") dualRef = some (strData "1") ∧
    subOnlyScene.extResources.find? (fun e => e.1 == strData "1") = none ∧
    resolveResourcePath dualRef subOnlyScene = strData "SubResource(Shader)" ∧
    strData "SubResource(Shader)" ≠ [] := by
  refine ⟨rfl, rfl, rfl, by decide⟩

/-- C10 (amended): `resolveResourcePath` returns the referenced resource's path
when an `ExtResource` token's id is a key of the external table; when the id
misses (or no such token is present) it falls through to `SubResource`
resolution, which yields the descriptive `SubResource(type)` string on a table
hit and the empty string on a miss or when no token is recognized. -/
theorem c10_resolution (scene : GodotScene) (v : Str) :
    (∀ id r, findCallToken (strData "ExtResource(\"") v = some id →
        scene.extResources.find? (fun e => e.1 == id) = some r →
        resolveResourcePath v scene = r.2.path) ∧
    (∀ id idS rS, findCallToken (strData "ExtResource(\"") v = some id →
        scene.extResources.find? (fun e => e.1 == id) = none →
        findCallToken (strData "SubResource(\"") v = some idS →
        scene.subResources.find? (fun e => e.1 == idS) = some rS →
        resolveResourcePath v scene = strData "SubResource(" ++ rS.2.rtype ++ [')']) ∧
    (∀ id, findCallToken (strData "ExtResource(\"") v = some id →
        scene.extResources.find? (fun e => e.1 == id) = none →
        findCallToken (strData "SubResource(\"") v = none →
        resolveResourcePath v scene = []) ∧
    (∀ id idS, findCallToken (strData "ExtResource(\"") v = some id →
        scene.extResources.find? (fun e => e.1 == id) = none →
        findCallToken (strData "SubResource(\"") v = some idS →
        scene.subResources.find? (fun e => e.1 == idS) = none →
        resolveResourcePath v scene = []) ∧
    (∀ idS rS, findCallToken (strData "ExtResource(\"") v = none →
        findCallToken (strData "SubResource(\"") v = some idS →
        scene.subResources.find? (fun e => e.1 == idS) = some rS →
        resolveResourcePath v scene = strData "SubResource(" ++ rS.2.rtype ++ [')']) ∧
    (∀ idS, findCallToken (strData "ExtResource(\"") v = none →
        findCallToken (strData "SubResource(\"") v = some idS →
        scene.subResources.find? (fun e => e.1 == idS) = none →
        resolveResourcePath v scene = []) ∧
    (findCallToken (strData "ExtResource(\"") v = none →
        findCallToken (strData "SubResource(\"") v = none →
        resolveResourcePath v scene = []) := by
  refine ⟨?_, ?_, ?_, ?_, ?_, ?_, ?_⟩
  · intro id r h1 h2; simp [resolveResourcePath, h1, h2]
  · intro id idS rS h1 h2 h3 h4; simp [resolveResourcePath, h1, h2, h3, h4]
  · intro id h1 h2 h3; simp [resolveResourcePath, h1, h2, h3]
  · intro id idS h1 h2 h3 h4; simp [resolveResourcePath, h1, h2, h3, h4]
  · intro idS rS h1 h2 h3; simp [resolveResourcePath, h1, h2, h3]
  · intro idS h1 h2 h3; simp [resolveResourcePath, h1, h2, h3]
  · intro h1 h2; simp [resolveResourcePath, h1, h2]

/-- Witness for C10: the spec's round-trip — the external declaration
`[ext_resource type="Texture2D" path="res://a.png" id="1_x"]` parsed by the
resource registry, then `ExtResource("1_x")` resolved to `res://a.png`. -/
theorem c10_resolution_witness :
    resolveResourcePath (strData "ExtResource(\"1_x\")") rtScene = strData "res://a.png" := by
  have h := (c10_resolution rtScene (strData "ExtResource(\"1_x\")")).1
    (strData "1_x") rtEntry rfl (by decide)
  exact h.trans (by decide)

theorem attachNode_nextIdx (st : AsmState) (n : GodotNode) (i : Nat) (pn : Option Nat)
    (a : Bool) : (attachNode st n i pn a).nextIdx = i + 1 := by
  cases pn with
  | some p => rfl
  | none =>
    cases h : st.rootIdx with
    | some rt => simp [attachNode, h]
    | none => simp [attachNode, h]

theorem attachNode_attach (st : AsmState) (n : GodotNode) (i : Nat) (pn : Option Nat)
    (a : Bool) : (attachNode st n i pn a).attach = st.attach ++
      [(i, match pn with
        | some p => AttachKind.asChild p
        | none => match st.rootIdx with
          | some rt => AttachKind.asChild rt
          | none => AttachKind.asRoot)] := by
  cases pn with
  | some p => rfl
  | none =>
    cases h : st.rootIdx with
    | some rt => simp [attachNode, h]
    | none => simp [attachNode, h]

theorem attachNode_processed (st : AsmState) (n : GodotNode) (i : Nat) (pn : Option Nat)
    (a : Bool) : (attachNode st n i pn a).processed = st.processed ++ [(i, n)] := by
  cases pn with
  | some p => rfl
  | none =>
    cases h : st.rootIdx with
    | some rt => simp [attachNode, h]
    | none => simp [attachNode, h]

theorem attachNode_ambig (st : AsmState) (n : GodotNode) (i : Nat) (pn : Option Nat)
    (a : Bool) : (attachNode st n i pn a).suffixAmbig = a := by
  cases pn with
  | some p => rfl
  | none =>
    cases h : st.rootIdx with
    | some rt => simp [attachNode, h]
    | none => simp [attachNode, h]

theorem attachNode_rootIdx_some (st : AsmState) (n : GodotNode) (i : Nat) (pn : Option Nat)
    (a : Bool) (r : Nat) (h : st.rootIdx = some r) :
    (attachNode st n i pn a).rootIdx = some r := by
  cases pn with
  | some p => simpa [attachNode] using h
  | none => simp [attachNode, h]

theorem attachNode_maps (st : AsmState) (n : GodotNode) (i : Nat) (pn : Option Nat)
    (a : Bool) : ∃ pp, (attachNode st n i pn a).pathMap = (pp, i) :: st.pathMap ∧
      (attachNode st n i pn a).pathOf = (i, pp) :: st.pathOf := by
  cases pn with
  | some p => exact ⟨pathOfIdx st p ++ '/' :: n.name, rfl, rfl⟩
  | none =>
    cases h : st.rootIdx with
    | some rt => exact ⟨pathOfIdx st rt ++ '/' :: n.name,
        by simp [attachNode, h], by simp [attachNode, h]⟩
    | none => exact ⟨n.name, by simp [attachNode, h], by simp [attachNode, h]⟩

theorem asmStep_eq (look : Nat → List (Str × Nat) → List (Str × Nat))
    (st : AsmState) (n : GodotNode) :
    asmStep look st n = attachNode st n st.nextIdx (stepPn look st n) (stepAmbig look st n) := by
  simp only [asmStep, stepPn, stepAmbig]
  by_cases h1 : (n.parent == [] || n.parent == ['.']) = true
  · simp only [if_pos h1]
    by_cases h2 : (n.parent == [] && st.rootIdx == none) = true
    · simp only [if_pos h2]
    · simp only [if_neg h2]
  · simp only [if_neg h1]

theorem asmStep_nextIdx (look : Nat → List (Str × Nat) → List (Str × Nat))
    (st : AsmState) (n : GodotNode) : (asmStep look st n).nextIdx = st.nextIdx + 1 := by
  rw [asmStep_eq]; exact attachNode_nextIdx ..

theorem asmStep_attach (look : Nat → List (Str × Nat) → List (Str × Nat))
    (st : AsmState) (n : GodotNode) :
    (asmStep look st n).attach = st.attach ++ [(st.nextIdx, stepKind look st n)] := by
  rw [asmStep_eq, attachNode_attach, stepKind]

theorem asmStep_processed (look : Nat → List (Str × Nat) → List (Str × Nat))
    (st : AsmState) (n : GodotNode) :
    (asmStep look st n).processed = st.processed ++ [(st.nextIdx, n)] := by
  rw [asmStep_eq]; exact attachNode_processed ..

theorem asmStep_rootIdx_some (look : Nat → List (Str × Nat) → List (Str × Nat))
    (st : AsmState) (n : GodotNode) (r : Nat) (h : st.rootIdx = some r) :
    (asmStep look st n).rootIdx = some r := by
  rw [asmStep_eq]; exact attachNode_rootIdx_some _ _ _ _ _ _ h

theorem asmFoldOrd_append (look : Nat → List (Str × Nat) → List (Str × Nat))
    (l1 l2 : List GodotNode) : ∀ s, asmFoldOrd look s (l1 ++ l2) =
      asmFoldOrd look (asmFoldOrd look s l1) l2 := by
  induction l1 with
  | nil => intro s; rfl
  | cons n ns ih => intro s; simpa [asmFoldOrd] using ih (asmStep look s n)

theorem asmFoldOrd_nextIdx (look : Nat → List (Str × Nat) → List (Str × Nat)) :
    ∀ (l : List GodotNode) (s), (asmFoldOrd look s l).nextIdx = s.nextIdx + l.length := by
  intro l
  induction l with
  | nil => intro s; simp [asmFoldOrd]
  | cons n ns ih =>
    intro s
    have := ih (asmStep look s n)
    simp only [asmFoldOrd] at this ⊢
    rw [this, asmStep_nextIdx]
    simp
    omega

theorem asmFoldOrd_rootIdx_some (look : Nat → List (Str × Nat) → List (Str × Nat)) :
    ∀ (l : List GodotNode) (s) (r : Nat), s.rootIdx = some r →
      (asmFoldOrd look s l).rootIdx = some r := by
  intro l
  induction l with
  | nil => intro s r h; exact h
  | cons n ns ih =>
    intro s r h
    simpa [asmFoldOrd] using ih (asmStep look s n) r (asmStep_rootIdx_some look s n r h)

theorem asmFoldOrd_attach_mono (look : Nat → List (Str × Nat) → List (Str × Nat)) :
    ∀ (l : List GodotNode) (s), ∃ t, (asmFoldOrd look s l).attach = s.attach ++ t := by
  intro l
  induction l with
  | nil => intro s; exact ⟨[], by simp [asmFoldOrd]⟩
  | cons n ns ih =>
    intro s
    obtain ⟨t, ht⟩ := ih (asmStep look s n)
    refine ⟨[(s.nextIdx, stepKind look s n)] ++ t, ?_⟩
    simp only [asmFoldOrd]
    rw [ht, asmStep_attach, List.append_assoc]

theorem asmFoldOrd_attach_keys (look : Nat → List (Str × Nat) → List (Str × Nat)) :
    ∀ (l : List GodotNode) (s), (∀ e ∈ s.attach, e.1 < s.nextIdx) →
      ∀ e ∈ (asmFoldOrd look s l).attach, e.1 < (asmFoldOrd look s l).nextIdx := by
  intro l
  induction l with
  | nil => intro s h; exact h
  | cons n ns ih =>
    intro s h
    simp only [asmFoldOrd]
    refine ih (asmStep look s n) ?_
    intro e he
    rw [asmStep_attach] at he
    rw [asmStep_nextIdx]
    rcases List.mem_append.mp he with he2 | he2
    · exact Nat.lt_succ_of_lt (h e he2)
    · rw [List.mem_singleton] at he2
      rw [he2]
      exact Nat.lt_succ_self _

theorem attOf_fold (look : Nat → List (Str × Nat) → List (Str × Nat))
    (nodes : List GodotNode) (i : Nat) (hi : i < nodes.length) :
    attOf (asmFoldOrd look initAsm nodes) i =
      some (stepKind look (asmFoldOrd look initAsm (nodes.take i)) nodes[i]) := by
  have hn : (asmFoldOrd look initAsm (nodes.take i)).nextIdx = i := by
    rw [asmFoldOrd_nextIdx]
    simp [initAsm, List.length_take]
    omega
  have hsplit : nodes.take i ++ nodes[i] :: nodes.drop (i + 1) = nodes := by
    rw [← List.drop_eq_getElem_cons hi, List.take_append_drop]
  conv_lhs => rw [← hsplit]
  rw [asmFoldOrd_append]
  show attOf (asmFoldOrd look
    (asmStep look (asmFoldOrd look initAsm (nodes.take i)) nodes[i]) (nodes.drop (i + 1))) i = _
  obtain ⟨t, ht⟩ := asmFoldOrd_attach_mono look (nodes.drop (i + 1))
    (asmStep look (asmFoldOrd look initAsm (nodes.take i)) nodes[i])
  unfold attOf
  rw [ht, asmStep_attach, hn]
  have hkeys : ∀ e ∈ (asmFoldOrd look initAsm (nodes.take i)).attach, e.1 < i := by
    intro e he
    have h2 := asmFoldOrd_attach_keys look (nodes.take i) initAsm
      (by intro e he2; simp [initAsm] at he2) e he
    rw [hn] at h2
    exact h2
  have hnone : (asmFoldOrd look initAsm (nodes.take i)).attach.find? (fun e => e.1 == i) = none := by
    apply List.find?_eq_none.mpr
    intro x hx
    simp only [beq_iff_eq]
    exact Nat.ne_of_lt (hkeys x hx)
  rw [List.append_assoc, List.find?_append, hnone]
  simp [List.find?]

theorem stepPn_initAsm (n : GodotNode) : stepPn idLook initAsm n = none := by
  unfold stepPn
  split_ifs with h1 h2 h3
  · rfl
  · rfl
  · rfl
  · show findParentInProcessedNodes n.parent [] (idLook 0 []) [] = none
    unfold findParentInProcessedNodes findParentTiersABC suffixScan idLook
    simp [List.find?, ite_self]

theorem stepKind_initAsm (n : GodotNode) : stepKind idLook initAsm n = AttachKind.asRoot := by
  unfold stepKind
  rw [stepPn_initAsm]
  rfl

theorem first_step_rootIdx (n : GodotNode) :
    (asmStep idLook initAsm n).rootIdx = some 0 := by
  rw [asmStep_eq, stepPn_initAsm]
  simp [attachNode, initAsm]

theorem buildSceneTree_root_first (nodes : List GodotNode) (h : nodes ≠ []) :
    (buildSceneTree nodes).rootIdx = some 0 := by
  obtain ⟨n, ns, rfl⟩ := List.exists_cons_of_ne_nil h
  show (asmFoldOrd idLook (asmStep idLook initAsm n) ns).rootIdx = some 0
  exact asmFoldOrd_rootIdx_some idLook ns _ 0 (first_step_rootIdx n)

theorem asmFoldOrd_attach_no_root (look : Nat → List (Str × Nat) → List (Str × Nat)) :
    ∀ (l : List GodotNode) (s) (r : Nat), s.rootIdx = some r →
      ∀ e ∈ (asmFoldOrd look s l).attach, e.2 = AttachKind.asRoot → e ∈ s.attach := by
  intro l
  induction l with
  | nil => intro s r _ e he _; exact he
  | cons n ns ih =>
    intro s r h e he hroot
    have he2 := ih (asmStep look s n) r (asmStep_rootIdx_some look s n r h) e he hroot
    rw [asmStep_attach] at he2
    rcases List.mem_append.mp he2 with h3 | h3
    · exact h3
    · exfalso
      rw [List.mem_singleton] at h3
      have hne : stepKind look s n ≠ AttachKind.asRoot := by
        unfold stepKind
        cases hpn : stepPn look s n with
        | some p => simp
        | none => rw [h]; simp
      rw [h3] at hroot
      exact hne hroot

theorem stepKind_empty_parent (look : Nat → List (Str × Nat) → List (Str × Nat))
    (st : AsmState) (n : GodotNode) (r : Nat)
    (hp : n.parent = []) (hr : st.rootIdx = some r) :
    stepKind look st n = AttachKind.asChild r := by
  unfold stepKind stepPn
  rw [hp, hr]
  have h1 : (([] : Str) == []) = true := rfl
  have h2 : (([] : Str) == ['.']) = false := rfl
  simp [h1, h2]

/-- C3 (confirmed): whenever at least one node is declared, the designated root
is exactly the node of the first node header (declaration index 0), whatever
its declared parent reference is, and no other node is ever designated root —
in particular a root always exists. -/
theorem c3_root_always_first (nodes : List GodotNode) (h : nodes ≠ []) :
    (buildSceneTree nodes).rootIdx = some 0 ∧
    attOf (buildSceneTree nodes) 0 = some AttachKind.asRoot ∧
    ∀ j, attOf (buildSceneTree nodes) j = some AttachKind.asRoot → j = 0 := by
  refine ⟨buildSceneTree_root_first nodes h, ?_, ?_⟩
  · have h0 : 0 < nodes.length := List.length_pos.mpr h
    show attOf (asmFoldOrd idLook initAsm nodes) 0 = some AttachKind.asRoot
    rw [attOf_fold idLook nodes 0 h0, List.take_zero]
    show some (stepKind idLook initAsm nodes[0]) = some AttachKind.asRoot
    rw [stepKind_initAsm]
  · intro j hj
    unfold attOf at hj
    obtain ⟨e, he1, he2⟩ := Option.map_eq_some'.mp hj
    have hp := List.find?_some he1
    have hm := List.mem_of_find?_eq_some he1
    have hej : e = (j, AttachKind.asRoot) := by
      obtain ⟨e1, e2⟩ := e
      simp only [beq_iff_eq] at hp
      simp only at he2
      rw [Prod.mk.injEq]
      exact ⟨hp, he2⟩
    rw [hej] at hm
    obtain ⟨n, ns, rfl⟩ := List.exists_cons_of_ne_nil h
    have hmem : (j, AttachKind.asRoot) ∈ (asmStep idLook initAsm n).attach := by
      refine asmFoldOrd_attach_no_root idLook ns (asmStep idLook initAsm n) 0
        (first_step_rootIdx n) _ ?_ rfl
      exact hm
    rw [asmStep_attach] at hmem
    simp [initAsm, Prod.mk.injEq] at hmem
    exact hmem.1

/-- Witness for C3 on the repository's five-node test scene. -/
theorem c3_root_always_first_witness :
    (buildSceneTree demoNodes).rootIdx = some 0 ∧
    attOf (buildSceneTree demoNodes) 0 = some AttachKind.asRoot :=
  ⟨(c3_root_always_first demoNodes (by decide)).1,
   (c3_root_always_first demoNodes (by decide)).2.1⟩

/-- Claim C2 as stated is false: here the only node with an empty declared
parent reference is node 1, yet node 0 (whose reference `X` is unresolvable)
is the designated root and node 1 is attached as its child. -/
theorem c2_counterexample :
    lateEmptyNodes.map (fun n => n.parent) = [strData "X", []] ∧
    (buildSceneTree lateEmptyNodes).rootIdx = some 0 ∧
    attOf (buildSceneTree lateEmptyNodes) 1 = some (AttachKind.asChild 0) := by
  refine ⟨rfl, rfl, rfl⟩

/-- C2 (amended): a node with an empty declared parent reference becomes the
root only when it is the very first declared node; any later node with an empty
reference is attached as a child of the node at index 0, which is already the
root. -/
theorem c2_empty_parent_placement (nodes : List GodotNode) (i : Nat)
    (hi : i < nodes.length) (hp : nodes[i].parent = []) :
    attOf (buildSceneTree nodes) i =
      some (if i = 0 then AttachKind.asRoot else AttachKind.asChild 0) := by
  show attOf (asmFoldOrd idLook initAsm nodes) i = _
  rw [attOf_fold idLook nodes i hi]
  rcases Nat.eq_zero_or_pos i with h0 | h0
  · subst h0
    rw [List.take_zero]
    show some (stepKind idLook initAsm nodes[0]) = _
    rw [stepKind_initAsm]
    simp
  · have hlen : (nodes.take i).length = i := by
      simp [List.length_take]
      omega
    have hne : nodes.take i ≠ [] := by
      intro hcon
      rw [hcon] at hlen
      simp at hlen
      omega
    have hr : (asmFoldOrd idLook initAsm (nodes.take i)).rootIdx = some 0 :=
      buildSceneTree_root_first (nodes.take i) hne
    rw [stepKind_empty_parent idLook _ _ 0 hp hr]
    have : i ≠ 0 := by omega
    simp [this]

/-- Witness for C2's amended theorem at the counterexample's input. -/
theorem c2_empty_parent_placement_witness :
    attOf (buildSceneTree lateEmptyNodes) 1 =
      some (if 1 = 0 then AttachKind.asRoot else AttachKind.asChild 0) :=
  c2_empty_parent_placement lateEmptyNodes 1 (by decide) (by decide)

theorem asmFoldOrd_processed (look : Nat → List (Str × Nat) → List (Str × Nat)) :
    ∀ (l : List GodotNode) (s),
      (asmFoldOrd look s l).processed = s.processed ++ List.enumFrom s.nextIdx l := by
  intro l
  induction l with
  | nil => intro s; simp [asmFoldOrd, List.enumFrom]
  | cons n ns ih =>
    intro s
    show (asmFoldOrd look (asmStep look s n) ns).processed = _
    rw [ih, asmStep_processed, asmStep_nextIdx]
    simp [List.enumFrom, List.append_assoc]

theorem asmStep_pminv (look : Nat → List (Str × Nat) → List (Str × Nat))
    (st : AsmState) (n : GodotNode)
    (h : ∀ p q, ((q, p) ∈ st.pathMap) ↔ ((p, q) ∈ st.pathOf)) :
    ∀ p q, ((q, p) ∈ (asmStep look st n).pathMap) ↔ ((p, q) ∈ (asmStep look st n).pathOf) := by
  rw [asmStep_eq]
  obtain ⟨pp, h1, h2⟩ := attachNode_maps st n st.nextIdx (stepPn look st n) (stepAmbig look st n)
  rw [h1, h2]
  intro p q
  simp only [List.mem_cons, Prod.mk.injEq]
  constructor
  · rintro (⟨hq, hp⟩ | hin)
    · exact Or.inl ⟨hp, hq⟩
    · exact Or.inr ((h p q).mp hin)
  · rintro (⟨hp, hq⟩ | hin)
    · exact Or.inl ⟨hq, hp⟩
    · exact Or.inr ((h p q).mpr hin)

theorem asmFoldOrd_pminv (look : Nat → List (Str × Nat) → List (Str × Nat)) :
    ∀ (l : List GodotNode) (s),
      (∀ p q, ((q, p) ∈ s.pathMap) ↔ ((p, q) ∈ s.pathOf)) →
      ∀ p q, ((q, p) ∈ (asmFoldOrd look s l).pathMap) ↔ ((p, q) ∈ (asmFoldOrd look s l).pathOf) := by
  intro l
  induction l with
  | nil => intro s h; exact h
  | cons n ns ih =>
    intro s h
    exact ih (asmStep look s n) (asmStep_pminv look s n h)

theorem pm_find_exact (st : AsmState) (r : Str)
    (inv : ∀ p q, ((q, p) ∈ st.pathMap) ↔ ((p, q) ∈ st.pathOf)) :
    (st.pathOf.any (fun e => e.2 == r) = false →
      st.pathMap.find? (fun e => e.1 == r) = none) ∧
    (st.pathOf.any (fun e => e.2 == r) = true →
      ∃ q0 p0, st.pathMap.find? (fun e => e.1 == r) = some (q0, p0) ∧ q0 = r ∧
        (p0, r) ∈ st.pathOf) := by
  constructor
  · intro ha
    apply List.find?_eq_none.mpr
    rintro ⟨q, p⟩ hx
    simp only [beq_iff_eq]
    intro hq
    rw [hq] at hx
    have hmem := (inv p r).mp hx
    have : st.pathOf.any (fun e => e.2 == r) = true :=
      List.any_eq_true.mpr ⟨(p, r), hmem, by simp⟩
    rw [this] at ha
    simp at ha
  · intro ha
    obtain ⟨⟨p, q⟩, hmem, hpred⟩ := List.any_eq_true.mp ha
    simp only [beq_iff_eq] at hpred
    subst hpred
    have hpm : (q, p) ∈ st.pathMap := (inv p q).mpr hmem
    have hsome : (st.pathMap.find? (fun e => e.1 == q)).isSome :=
      List.find?_isSome.mpr ⟨(q, p), hpm, by simp⟩
    obtain ⟨⟨q0, p0⟩, he⟩ := Option.isSome_iff_exists.mp hsome
    have hq0 : q0 = q := by
      have := List.find?_some he
      simpa using this
    subst hq0
    refine ⟨q0, p0, he, rfl, ?_⟩
    exact (inv p0 q0).mp (List.mem_of_find?_eq_some he)

theorem pm_find_suffix (st : AsmState) (r : Str)
    (inv : ∀ p q, ((q, p) ∈ st.pathMap) ↔ ((p, q) ∈ st.pathOf)) :
    (st.pathOf.any (fun e => List.isSuffixOf ('/' :: r) e.2) = false →
      st.pathMap.find? (suffixPred r) = none) ∧
    (st.pathOf.any (fun e => List.isSuffixOf ('/' :: r) e.2) = true →
      ∃ q0 p0, st.pathMap.find? (suffixPred r) = some (q0, p0) ∧
        List.isSuffixOf ('/' :: r) q0 = true ∧ (p0, q0) ∈ st.pathOf) := by
  constructor
  · intro ha
    apply List.find?_eq_none.mpr
    rintro ⟨q, p⟩ hx
    unfold suffixPred
    intro hq
    have hmem := (inv p q).mp hx
    have : st.pathOf.any (fun e => List.isSuffixOf ('/' :: r) e.2) = true :=
      List.any_eq_true.mpr ⟨(p, q), hmem, hq⟩
    rw [this] at ha
    simp at ha
  · intro ha
    obtain ⟨⟨p, q⟩, hmem, hpred⟩ := List.any_eq_true.mp ha
    have hpm : (q, p) ∈ st.pathMap := (inv p q).mpr hmem
    have hsome : (st.pathMap.find? (suffixPred r)).isSome :=
      List.find?_isSome.mpr ⟨(q, p), hpm, by simpa [suffixPred] using hpred⟩
    obtain ⟨⟨q0, p0⟩, he⟩ := Option.isSome_iff_exists.mp hsome
    refine ⟨q0, p0, he, by simpa [suffixPred] using List.find?_some he, ?_⟩
    exact (inv p0 q0).mp (List.mem_of_find?_eq_some he)

theorem enumFrom_find_none (p : GodotNode → Bool) :
    ∀ (pre : List GodotNode) (k : Nat), pre.any p = false →
      (List.enumFrom k pre).find? (fun e => p e.2) = none := by
  intro pre
  induction pre with
  | nil => intro k _; rfl
  | cons x xs ih =>
    intro k h
    rw [List.any_cons] at h
    have hx : p x = false := by
      cases hx : p x
      · rfl
      · rw [hx] at h; simp at h
    have hxs : xs.any p = false := by
      cases hxs : xs.any p
      · rfl
      · rw [hxs] at h; simp at h
    show List.find? (fun e => p e.2) ((k, x) :: List.enumFrom (k + 1) xs) = none
    rw [List.find?_cons_of_neg]
    · exact ih (k + 1) hxs
    · simp [hx]

theorem enumFrom_find_some (p : GodotNode → Bool) :
    ∀ (pre : List GodotNode) (k : Nat), pre.any p = true →
      ∃ e, (List.enumFrom k pre).find? (fun e => p e.2) = some e := by
  intro pre
  induction pre with
  | nil => intro k h; simp at h
  | cons x xs ih =>
    intro k h
    rw [List.any_cons] at h
    cases hx : p x with
    | true =>
      refine ⟨(k, x), ?_⟩
      show List.find? (fun e => p e.2) ((k, x) :: List.enumFrom (k + 1) xs) = some (k, x)
      apply List.find?_cons_of_pos
      simpa using hx
    | false =>
      have hxs : xs.any p = true := by
        rw [hx, Bool.false_or] at h
        exact h
      obtain ⟨e, he⟩ := ih (k + 1) hxs
      refine ⟨e, ?_⟩
      show List.find? (fun e => p e.2) ((k, x) :: List.enumFrom (k + 1) xs) = some e
      rw [List.find?_cons_of_neg]
      · exact he
      · simp [hx]

/-- C1 (confirmed): for a node whose declared parent reference is neither empty
nor `"."`, the assembler resolves the parent through the four-tier order of
`ParentResolutionSpec` — exact canonical-path match, first name match in
declaration order, first name match on the last path component, any path-index
entry ending in slash-reference — over the previously processed prefix only,
and attaches the node to the resolved parent, to the root when all tiers fail,
or designates it root when no root exists yet. -/
theorem c1_parent_resolution (nodes : List GodotNode) (i : Nat) (hi : i < nodes.length)
    (h1 : nodes[i].parent ≠ []) (h2 : nodes[i].parent ≠ ['.']) :
    ∃ fp, ParentSpec (buildSceneTree (nodes.take i)) (nodes.take i) nodes[i].parent fp ∧
      attOf (buildSceneTree nodes) i =
        some (match fp, (buildSceneTree (nodes.take i)).rootIdx with
          | some p, _ => AttachKind.asChild p
          | none, some rt => AttachKind.asChild rt
          | none, none => AttachKind.asRoot) := by
  have hb1 : (nodes[i].parent == []) = false := beq_eq_false_iff_ne.mpr h1
  have hb2 : (nodes[i].parent == ['.']) = false := beq_eq_false_iff_ne.mpr h2
  have hinv : ∀ p q, ((q, p) ∈ (buildSceneTree (nodes.take i)).pathMap) ↔
      ((p, q) ∈ (buildSceneTree (nodes.take i)).pathOf) := by
    show ∀ p q, ((q, p) ∈ (asmFoldOrd idLook initAsm (nodes.take i)).pathMap) ↔ _
    apply asmFoldOrd_pminv
    intro p q
    show ((q, p) ∈ ([] : List (Str × Nat))) ↔ ((p, q) ∈ ([] : List (Nat × Str)))
    simp
  have hproc : (buildSceneTree (nodes.take i)).processed = List.enumFrom 0 (nodes.take i) := by
    show (asmFoldOrd idLook initAsm (nodes.take i)).processed = _
    rw [asmFoldOrd_processed]
    simp [initAsm]
  have hstep : stepPn idLook (buildSceneTree (nodes.take i)) nodes[i] =
      findParentInProcessedNodes nodes[i].parent (buildSceneTree (nodes.take i)).pathMap
        (buildSceneTree (nodes.take i)).pathMap (buildSceneTree (nodes.take i)).processed := by
    unfold stepPn
    rw [hb1, hb2]
    simp [idLook]
  refine ⟨findParentInProcessedNodes nodes[i].parent (buildSceneTree (nodes.take i)).pathMap
      (buildSceneTree (nodes.take i)).pathMap (buildSceneTree (nodes.take i)).processed, ?_, ?_⟩
  · unfold ParentSpec
    by_cases ca : (buildSceneTree (nodes.take i)).pathOf.any
        (fun e => e.2 == nodes[i].parent) = true
    · rw [if_pos ca]
      obtain ⟨q0, p0, hfind, hq0, hmem⟩ := (pm_find_exact _ _ hinv).2 ca
      refine ⟨p0, ?_, hmem⟩
      simp [findParentInProcessedNodes, findParentTiersABC, hfind]
    · rw [if_neg ca]
      have ca2 : (buildSceneTree (nodes.take i)).pathOf.any
          (fun e => e.2 == nodes[i].parent) = false := by
        cases hx : (buildSceneTree (nodes.take i)).pathOf.any (fun e => e.2 == nodes[i].parent)
        · rfl
        · exact absurd hx ca
      have hfa := (pm_find_exact _ nodes[i].parent hinv).1 ca2
      by_cases cb : (nodes.take i).any (fun n => n.name == nodes[i].parent) = true
      · rw [if_pos cb]
        obtain ⟨e, he⟩ := enumFrom_find_some (fun n => n.name == nodes[i].parent)
          (nodes.take i) 0 cb
        simp [findParentInProcessedNodes, findParentTiersABC, firstNameMatch, List.enum,
          hfa, hproc, he]
      · rw [if_neg cb]
        have cb2 : (nodes.take i).any (fun n => n.name == nodes[i].parent) = false := by
          cases hx : (nodes.take i).any (fun n => n.name == nodes[i].parent)
          · rfl
          · exact absurd hx cb
        have hfb := enumFrom_find_none (fun n => n.name == nodes[i].parent) (nodes.take i) 0 cb2
        by_cases cc : (nodes[i].parent.contains '/' &&
            (nodes.take i).any (fun n => n.name == lastComponent nodes[i].parent)) = true
        · rw [if_pos cc]
          have cc12 := cc
          rw [Bool.and_eq_true] at cc12
          obtain ⟨cc1, cc2⟩ := cc12
          obtain ⟨e, he⟩ := enumFrom_find_some
            (fun n => n.name == lastComponent nodes[i].parent) (nodes.take i) 0 cc2
          have hcm : '/' ∈ nodes[i].parent := by simpa using cc1
          simp [findParentInProcessedNodes, findParentTiersABC, firstNameMatch, List.enum,
            hfa, hproc, hfb, hcm, he]
        · rw [if_neg cc]
          have habc : findParentTiersABC nodes[i].parent
              (buildSceneTree (nodes.take i)).pathMap
              (buildSceneTree (nodes.take i)).processed = none := by
            simp only [findParentTiersABC, hfa, hproc, hfb]
            by_cases ccc : nodes[i].parent.contains '/' = true
            · rw [if_pos ccc]
              have cc2f : (nodes.take i).any
                  (fun n => n.name == lastComponent nodes[i].parent) = false := by
                cases hx : (nodes.take i).any (fun n => n.name == lastComponent nodes[i].parent)
                · rfl
                · have hcm : '/' ∈ nodes[i].parent := by simpa using ccc
                  exact absurd (by simp [hcm, hx]) cc
              have hfc := enumFrom_find_none
                (fun n => n.name == lastComponent nodes[i].parent) (nodes.take i) 0 cc2f
              simp [hfc]
            · rw [if_neg ccc]
          by_cases cd : (buildSceneTree (nodes.take i)).pathOf.any
              (fun e => List.isSuffixOf ('/' :: nodes[i].parent) e.2) = true
          · rw [if_pos cd]
            obtain ⟨q0, p0, hfd, hsuf, hmem⟩ := (pm_find_suffix _ _ hinv).2 cd
            refine ⟨p0, q0, ?_, hmem, hsuf⟩
            simp [findParentInProcessedNodes, suffixScan, habc, hfd]
          · rw [if_neg cd]
            have cd2 : (buildSceneTree (nodes.take i)).pathOf.any
                (fun e => List.isSuffixOf ('/' :: nodes[i].parent) e.2) = false := by
              cases hx : (buildSceneTree (nodes.take i)).pathOf.any
                  (fun e => List.isSuffixOf ('/' :: nodes[i].parent) e.2)
              · rfl
              · exact absurd hx cd
            have hfd := (pm_find_suffix _ nodes[i].parent hinv).1 cd2
            simp [findParentInProcessedNodes, suffixScan, habc, hfd]
  · show attOf (asmFoldOrd idLook initAsm nodes) i = _
    rw [attOf_fold idLook nodes i hi]
    congr 1
    show stepKind idLook (buildSceneTree (nodes.take i)) nodes[i] = _
    unfold stepKind
    rw [hstep]
    cases hfp : findParentInProcessedNodes nodes[i].parent
        (buildSceneTree (nodes.take i)).pathMap (buildSceneTree (nodes.take i)).pathMap
        (buildSceneTree (nodes.take i)).processed with
    | some p => rfl
    | none =>
      cases hro : (buildSceneTree (nodes.take i)).rootIdx with
      | some rt => rfl
      | none => rfl

/-- Witness for C1: on the five-node test scene, node 3 (`GrandChild`, declared
parent `Child1`) resolves through the name-match tier to node 1. -/
theorem c1_parent_resolution_witness :
    attOf (buildSceneTree demoNodes) 3 = some (AttachKind.asChild 1) := by
  obtain ⟨fp, hspec, hatt⟩ := c1_parent_resolution demoNodes 3 (by decide) (by decide) (by decide)
  unfold ParentSpec at hspec
  rw [if_neg (by decide), if_pos (by decide)] at hspec
  rw [hspec] at hatt
  exact hatt.trans (by decide)

theorem find?_perm_of_countP_le_one {α : Type} (p : α → Bool) :
    ∀ {l l' : List α}, l.Perm l' → l.countP p ≤ 1 → l.find? p = l'.find? p := by
  intro l l' h
  induction h with
  | nil => intro _; rfl
  | cons x h ih =>
    intro hc
    cases hx : p x
    · rw [List.find?_cons_of_neg _ (by simp [hx]), List.find?_cons_of_neg _ (by simp [hx])]
      apply ih
      rw [List.countP_cons] at hc
      simpa [hx] using hc
    · rw [List.find?_cons_of_pos _ hx, List.find?_cons_of_pos _ hx]
  | swap x y l =>
    intro hc
    cases hx : p x <;> cases hy : p y
    · rw [List.find?_cons_of_neg _ (by simp [hy]), List.find?_cons_of_neg _ (by simp [hx]),
        List.find?_cons_of_neg _ (by simp [hx]), List.find?_cons_of_neg _ (by simp [hy])]
    · rw [List.find?_cons_of_pos _ hy, List.find?_cons_of_neg _ (by simp [hx]),
        List.find?_cons_of_pos _ hy]
    · rw [List.find?_cons_of_neg _ (by simp [hy]), List.find?_cons_of_pos _ hx,
        List.find?_cons_of_pos _ hx]
    · exfalso
      rw [List.countP_cons, List.countP_cons] at hc
      simp [hx, hy] at hc
  | trans h1 h2 ih1 ih2 =>
    intro hc
    refine (ih1 hc).trans (ih2 ?_)
    rw [← List.Perm.countP_eq p h1]
    exact hc

theorem asmStep_ambig (look : Nat → List (Str × Nat) → List (Str × Nat))
    (st : AsmState) (n : GodotNode) :
    (asmStep look st n).suffixAmbig = stepAmbig look st n := by
  rw [asmStep_eq]; exact attachNode_ambig ..

theorem stepAmbig_false (look : Nat → List (Str × Nat) → List (Str × Nat))
    (st : AsmState) (n : GodotNode) (h : stepAmbig look st n = false) :
    st.suffixAmbig = false := by
  unfold stepAmbig at h
  by_cases h1 : (n.parent == [] || n.parent == ['.']) = true
  · rw [if_pos h1] at h; exact h
  · rw [if_neg h1] at h
    exact (Bool.or_eq_false_iff.mp h).1

theorem asmFoldOrd_ambig_mono (look : Nat → List (Str × Nat) → List (Str × Nat)) :
    ∀ (l : List GodotNode) (s), (asmFoldOrd look s l).suffixAmbig = false →
      s.suffixAmbig = false := by
  intro l
  induction l with
  | nil => intro s h; exact h
  | cons n ns ih =>
    intro s h
    have h2 := ih (asmStep look s n) h
    rw [asmStep_ambig] at h2
    exact stepAmbig_false look s n h2

theorem asmStep_look_eq (look : Nat → List (Str × Nat) → List (Str × Nat))
    (hperm : ∀ i l, (look i l).Perm l) (s : AsmState) (n : GodotNode)
    (hna : (asmStep idLook s n).suffixAmbig = false) :
    asmStep look s n = asmStep idLook s n := by
  rw [asmStep_ambig] at hna
  by_cases h1 : (n.parent == [] || n.parent == ['.']) = true
  · simp only [asmStep, if_pos h1]
  · simp only [asmStep, if_neg h1]
    have hcount : (look s.nextIdx s.pathMap).countP (suffixPred n.parent) =
        s.pathMap.countP (suffixPred n.parent) :=
      List.Perm.countP_eq _ (hperm s.nextIdx s.pathMap)
    unfold stepAmbig at hna
    rw [if_neg h1] at hna
    have hna2 := Bool.or_eq_false_iff.mp hna
    cases habc : findParentTiersABC n.parent s.pathMap s.processed with
    | some p =>
      simp [findParentInProcessedNodes, habc, idLook, hcount]
    | none =>
      have hd : decide (2 ≤ s.pathMap.countP (suffixPred n.parent)) = false := by
        have h3 := hna2.2
        rw [habc] at h3
        simpa [idLook] using h3
      have hc1 : s.pathMap.countP (suffixPred n.parent) ≤ 1 := by
        have := of_decide_eq_false hd
        omega
      have hfind : (look s.nextIdx s.pathMap).find? (suffixPred n.parent) =
          s.pathMap.find? (suffixPred n.parent) :=
        (find?_perm_of_countP_le_one (suffixPred n.parent)
          (hperm s.nextIdx s.pathMap).symm hc1).symm
      simp [findParentInProcessedNodes, habc, suffixScan, idLook, hfind, hcount]

theorem asmFoldOrd_look_eq (look : Nat → List (Str × Nat) → List (Str × Nat))
    (hperm : ∀ i l, (look i l).Perm l) :
    ∀ (l : List GodotNode) (s), (asmFoldOrd idLook s l).suffixAmbig = false →
      asmFoldOrd look s l = asmFoldOrd idLook s l := by
  intro l
  induction l with
  | nil => intro s _; rfl
  | cons n ns ih =>
    intro s h
    show asmFoldOrd look (asmStep look s n) ns = asmFoldOrd idLook (asmStep idLook s n) ns
    have hstepamb : (asmStep idLook s n).suffixAmbig = false :=
      asmFoldOrd_ambig_mono idLook ns (asmStep idLook s n) h
    rw [asmStep_look_eq look hperm s n hstepamb]
    exact ih (asmStep idLook s n) h

/-- Claim C9 as stated is false: on `ambigNodes` the path-suffix fallback sees
two matching path-index entries, and two admissible iteration orders of the Go
map (insertion order and its reverse — a permutation) produce different scene
trees, so the result is not reproducible across runs. -/
theorem c9_counterexample :
    buildSceneTreeOrd (fun _ l => l.reverse) ambigNodes ≠ buildSceneTree ambigNodes ∧
    (buildSceneTree ambigNodes).suffixAmbig = true := by
  constructor
  · decide
  · rfl

/-- C9 (amended): parsing is deterministic up to the map iteration order of the
path-suffix fallback — for every input, any iteration order that enumerates the
same path-index entries (a permutation) produces the same scene whenever no
suffix-fallback consultation ever sees two or more matching entries. -/
theorem c9_order_invariance (nodes : List GodotNode)
    (look : Nat → List (Str × Nat) → List (Str × Nat))
    (hperm : ∀ i l, (look i l).Perm l)
    (hna : (buildSceneTree nodes).suffixAmbig = false) :
    buildSceneTreeOrd look nodes = buildSceneTree nodes :=
  asmFoldOrd_look_eq look hperm nodes initAsm hna

/-- Witness for C9's amended theorem: reversing the index at every consultation
leaves the five-node test scene unchanged. -/
theorem c9_order_invariance_witness :
    buildSceneTreeOrd (fun _ l => l.reverse) demoNodes = buildSceneTree demoNodes :=
  c9_order_invariance demoNodes (fun _ l => l.reverse)
    (fun _ l => List.reverse_perm l) (by decide)
